import Mathlib

set_option maxRecDepth 8192

/-!
Verification of the rmOneNoteSyncClient cache store, sync state machine and
upload retry policy against its C sources (cache_io.c / cache_io.h,
httpclient.c, watcher.c, metadata_parser.c).

C strings (UUIDs, page numbers) are modelled as lists of byte values
(`List Nat`, each element `< 256`, null-free); the hash table of
`CacheHandle` is a list of 256 buckets, each a list of documents in
linked-list order (the C code prepends at the bucket head); a page's
linked list is a `List PageEntry` with the head of the list being
`doc->pages`.  Machine integers are `Nat` with explicit `% 2^w` where the
C code can overflow (`uint8_t` retry counts, `uint32_t` hashing).
-/

namespace RmSync

/-- Bytes of a C string: `List Nat`, each `< 256`, no embedded zeros. -/
abbrev Bytes := List Nat

/-- SYNC_PENDING from cache_io.h. -/
def SYNC_PENDING : Nat := 0
/-- SYNC_UPLOADED from cache_io.h. -/
def SYNC_UPLOADED : Nat := 1
/-- SYNC_FAILED from cache_io.h. -/
def SYNC_FAILED : Nat := 2
/-- SYNC_SKIPPED from cache_io.h. -/
def SYNC_SKIPPED : Nat := 3

/-- CACHE_MAGIC from cache_io.h (0x524D4348). -/
def CACHE_MAGIC : Nat := 0x524D4348
/-- CACHE_VERSION from cache_io.h. -/
def CACHE_VERSION : Nat := 2
/-- UUID_LEN from cache_io.h. -/
def UUID_LEN : Nat := 36
/-- MAX_PAGE_NUM_LEN from cache_io.h. -/
def MAX_PAGE_NUM_LEN : Nat := 8
/-- HASH_TABLE_SIZE from cache_io.c. -/
def HASH_TABLE_SIZE : Nat := 256

/-- PageEntry from cache_io.h: the per-page record.  `uuid` and `page_num`
are the C strings held in the fixed `char` buffers; `sync_status` and
`retry_count` are the `uint8_t` fields. -/
structure PageEntry where
  uuid : Bytes
  page_num : Bytes
  mtime : Nat
  sync_status : Nat
  retry_count : Nat
  deriving DecidableEq, Repr

/-- DocumentEntry from cache_io.h: a document id plus its page list
(`doc->pages` is the head of the list). -/
structure DocumentEntry where
  doc_id : Bytes
  pages : List PageEntry
  deriving DecidableEq, Repr

/-- CacheHandle from cache_io.h: the 256-bucket hash table of documents,
the dirty flag, and the bound file path. -/
structure CacheHandle where
  table : List (List DocumentEntry)
  dirty : Bool
  path : String
  deriving DecidableEq, Repr

/-- hash_string from cache_io.c: djb2 over the bytes of the id,
`hash = hash * 33 + c` in `unsigned int` arithmetic, reduced
`% HASH_TABLE_SIZE`. -/
def hash_string (s : Bytes) : Nat :=
  (s.foldl (fun h c => (h * 33 + c) % 4294967296) 5381) % HASH_TABLE_SIZE

/-- The empty 256-bucket table calloc'd by cache_open. -/
def emptyTable : List (List DocumentEntry) := List.replicate HASH_TABLE_SIZE []

/-- A freshly opened cache bound to `path` with nothing loaded
(cache_open before any file is read). -/
def emptyCache (path : String) : CacheHandle :=
  { table := emptyTable, dirty := false, path := path }

/-- cache_find_document from cache_io.c: walk the bucket selected by
`hash_string` and return the first entry whose stored id equals the
argument (strcmp). -/
def cache_find_document (c : CacheHandle) (doc_id : Bytes) : Option DocumentEntry :=
  (c.table.getD (hash_string doc_id) []).find? (fun d => d.doc_id == doc_id)

/-- cache_find_page from cache_io.c: walk the document's page list and
return the first page whose stored uuid equals the argument. -/
def cache_find_page (doc : DocumentEntry) (page_uuid : Bytes) : Option PageEntry :=
  doc.pages.find? (fun p => p.uuid == page_uuid)

/-- The field updates cache_add_or_update_page applies to the found (or
fresh) page: `page_num` is overwritten only when the argument is non-null
(strncpy bounded by MAX_PAGE_NUM_LEN - 1), `mtime` and `sync_status`
are always overwritten (`sync_status` is a `uint8_t` field). -/
def updatePageFields (page_num : Option Bytes) (mtime status : Nat)
    (p : PageEntry) : PageEntry :=
  { p with
    page_num := match page_num with
                | some s => s.take (MAX_PAGE_NUM_LEN - 1)
                | none => p.page_num
    mtime := mtime
    sync_status := status % 256 }

/-- The calloc'd PageEntry of cache_add_or_update_page with its uuid
strncpy'd (truncated at UUID_LEN); every other field is zero. -/
def newPage (page_uuid : Bytes) : PageEntry :=
  { uuid := page_uuid.take UUID_LEN, page_num := [], mtime := 0
    sync_status := 0, retry_count := 0 }

/-- Replace the first page in the list whose uuid equals `page_uuid` by
its image under `f` (in-place mutation of the node found by
cache_find_page). -/
def replaceFirstPage (page_uuid : Bytes) (f : PageEntry → PageEntry) :
    List PageEntry → List PageEntry
  | [] => []
  | p :: ps =>
    if p.uuid == page_uuid then f p :: ps
    else p :: replaceFirstPage page_uuid f ps

/-- The page-level part of cache_add_or_update_page: find the page, or
calloc a new one prepended to `doc->pages`, then apply the common field
updates. -/
def upsertPagesList (page_uuid : Bytes) (page_num : Option Bytes)
    (mtime status : Nat) (ps : List PageEntry) : List PageEntry :=
  if ps.any (fun p => p.uuid == page_uuid) then
    replaceFirstPage page_uuid (updatePageFields page_num mtime status) ps
  else
    updatePageFields page_num mtime status (newPage page_uuid) :: ps

/-- Replace the first document in the bucket whose id equals `doc_id` by
its image under `f`. -/
def replaceFirstDoc (doc_id : Bytes) (f : DocumentEntry → DocumentEntry) :
    List DocumentEntry → List DocumentEntry
  | [] => []
  | d :: ds =>
    if d.doc_id == doc_id then f d :: ds
    else d :: replaceFirstDoc doc_id f ds

/-- The bucket-level part of cache_add_or_update_page: find the document
(strcmp against the full argument), or calloc a new one — id strncpy'd,
truncated at UUID_LEN — prepended at the bucket head, then upsert the
page inside it. -/
def upsertBucket (doc_id page_uuid : Bytes) (page_num : Option Bytes)
    (mtime status : Nat) (ds : List DocumentEntry) : List DocumentEntry :=
  if ds.any (fun d => d.doc_id == doc_id) then
    replaceFirstDoc doc_id
      (fun d => { d with pages := upsertPagesList page_uuid page_num mtime status d.pages }) ds
  else
    { doc_id := doc_id.take UUID_LEN
      pages := upsertPagesList page_uuid page_num mtime status [] } :: ds

/-- cache_add_or_update_page from cache_io.c: find-or-create the document
and the page, update the page's mutable fields, and mark the store dirty.
A null `page_num` argument is `none`. -/
def cache_add_or_update_page (c : CacheHandle) (doc_id page_uuid : Bytes)
    (page_num : Option Bytes) (mtime status : Nat) : CacheHandle :=
  let h := hash_string doc_id
  { c with
    table := c.table.set h (upsertBucket doc_id page_uuid page_num mtime status (c.table.getD h []))
    dirty := true }

/-- The page-level walk of cache_update_page_status: mutate the first
page with the given uuid, or report not-found (`none`, the C `-1`). -/
def updStatusPages (page_uuid : Bytes) (status retry : Nat) :
    List PageEntry → Option (List PageEntry)
  | [] => none
  | p :: ps =>
    if p.uuid == page_uuid then
      some ({ p with sync_status := status % 256, retry_count := retry % 256 } :: ps)
    else
      (updStatusPages page_uuid status retry ps).map (p :: ·)

/-- The bucket-level walk of cache_update_page_status: the document found
first (cache_find_document) must contain the page, otherwise the call
fails with the store unchanged. -/
def updStatusDocs (doc_id page_uuid : Bytes) (status retry : Nat) :
    List DocumentEntry → Option (List DocumentEntry)
  | [] => none
  | d :: ds =>
    if d.doc_id == doc_id then
      (updStatusPages page_uuid status retry d.pages).map
        (fun ps => { d with pages := ps } :: ds)
    else
      (updStatusDocs doc_id page_uuid status retry ds).map (d :: ·)

/-- cache_update_page_status from cache_io.c: `none` models the `-1`
not-found failure (store untouched); on success the page's `uint8_t`
status and retry fields are overwritten and the store is dirty. -/
def cache_update_page_status (c : CacheHandle) (doc_id page_uuid : Bytes)
    (status retry : Nat) : Option CacheHandle :=
  let h := hash_string doc_id
  match updStatusDocs doc_id page_uuid status retry (c.table.getD h []) with
  | none => none
  | some b => some { c with table := c.table.set h b, dirty := true }

/-- The page loop of cache_get_pending_pages: collect pages whose status
is SYNC_PENDING while the quota lasts; returns the remaining quota and
the collected pages. -/
def pendingFromPages (q : Nat) : List PageEntry → Nat × List PageEntry
  | [] => (q, [])
  | p :: ps =>
    if q = 0 then (0, [])
    else if p.sync_status = SYNC_PENDING then
      let r := pendingFromPages (q - 1) ps
      (r.1, p :: r.2)
    else
      pendingFromPages q ps

/-- The document loop of cache_get_pending_pages. -/
def pendingFromDocs (q : Nat) : List DocumentEntry → Nat × List PageEntry
  | [] => (q, [])
  | d :: ds =>
    if q = 0 then (0, [])
    else
      let r := pendingFromPages q d.pages
      let r' := pendingFromDocs r.1 ds
      (r'.1, r.2 ++ r'.2)

/-- The bucket loop of cache_get_pending_pages. -/
def pendingFromBuckets (q : Nat) : List (List DocumentEntry) → Nat × List PageEntry
  | [] => (q, [])
  | b :: bs =>
    if q = 0 then (0, [])
    else
      let r := pendingFromDocs q b
      let r' := pendingFromBuckets r.1 bs
      (r'.1, r.2 ++ r'.2)

/-- cache_get_pending_pages from cache_io.c: a non-positive `max_pages`
returns no array at all (the C NULL, modelled `none`); otherwise the
NULL-terminated result array is modelled as the collected list. -/
def cache_get_pending_pages (c : CacheHandle) (max_pages : Int) : Option (List PageEntry) :=
  if max_pages ≤ 0 then none
  else some (pendingFromBuckets max_pages.toNat c.table).2

/-- All pages of the store in the scan order of the nested loops:
buckets in index order, documents in bucket order, pages in list order. -/
def allPages (c : CacheHandle) : List PageEntry :=
  ((c.table.flatten).map DocumentEntry.pages).flatten

/-- Little-endian bytes of a machine integer of width `k` bytes (the
fwrite of a `uint32_t`, `uint16_t` or `time_t` field). -/
def leBytes : Nat → Nat → Bytes
  | 0, _ => []
  | k + 1, v => v % 256 :: leBytes k (v / 256)

/-- The value read back from little-endian bytes (the fread of a
fixed-width field). -/
def leVal (bs : Bytes) : Nat := bs.foldr (fun b acc => b + 256 * acc) 0

/-- The 36-byte on-disk image of an id buffer: the stored C string
followed by the zero padding of the calloc'd `char[37]` buffer
(fwrite of UUID_LEN bytes). -/
def padTo (n : Nat) (s : Bytes) : Bytes :=
  s.take n ++ List.replicate (n - s.length) 0

/-- The C string held in a byte buffer: bytes up to the first NUL. -/
def cStr (bs : Bytes) : Bytes := bs.takeWhile (fun b => b ≠ 0)

/-- The bytes cache_save writes for one page: 36 uuid bytes, the
page-number length byte and bytes, the 8-byte `time_t`, and the two
`uint8_t` status fields (current CACHE_VERSION layout). -/
def encodePage (p : PageEntry) : Bytes :=
  padTo UUID_LEN p.uuid ++ p.page_num.length :: (p.page_num ++
    (leBytes 8 p.mtime ++ p.sync_status :: [p.retry_count]))

/-- The bytes cache_save writes for one document: the constant id length
byte 36, the 36 id bytes, the `uint16_t` page count, then the pages in
linked-list order. -/
def encodeDoc (d : DocumentEntry) : Bytes :=
  UUID_LEN :: (padTo UUID_LEN d.doc_id ++
    (leBytes 2 d.pages.length ++ (d.pages.map encodePage).flatten))

/-- The document records section written by cache_save, documents in
bucket-scan order. -/
def encodeDocs (ds : List DocumentEntry) : Bytes := (ds.map encodeDoc).flatten

/-- The whole file cache_save writes: magic, CACHE_VERSION, the
`uint32_t` document count, then every document of every bucket in scan
order. -/
def encodeStore (c : CacheHandle) : Bytes :=
  leBytes 4 CACHE_MAGIC ++ CACHE_VERSION ::
    (leBytes 4 c.table.flatten.length ++ encodeDocs c.table.flatten)

/-- The page-reading loop of cache_open: each iteration freads the uuid,
the page-number length and bytes, the mtime and (version 2 only) the two
status bytes.  A short read consumes the rest of the stream and breaks;
a `page_num_len >= MAX_PAGE_NUM_LEN` violation breaks with the stream
positioned after the length byte.  Pages decoded before a break are
kept (they were already linked into the document). -/
def decodePagesLoop (ver : Nat) : Nat → Bytes → List PageEntry × Bytes
  | 0, bs => ([], bs)
  | Nat.succ j, bs =>
    if bs.length < UUID_LEN then ([], []) else
    let uuid := cStr (bs.take UUID_LEN)
    match bs.drop UUID_LEN with
    | [] => ([], [])
    | len :: bs1 =>
      if MAX_PAGE_NUM_LEN ≤ len then ([], bs1) else
      if bs1.length < len then ([], []) else
      let pn := cStr (bs1.take len)
      let bs2 := bs1.drop len
      if bs2.length < 8 then ([], []) else
      let mt := leVal (bs2.take 8)
      let bs3 := bs2.drop 8
      if ver = CACHE_VERSION then
        match bs3 with
        | [] => ([], [])
        | st :: bs4 =>
          match bs4 with
          | [] => ([], [])
          | rc :: bs5 =>
            let r := decodePagesLoop ver j bs5
            (⟨uuid, pn, mt, st, rc⟩ :: r.1, r.2)
      else
        let r := decodePagesLoop ver j bs3
        (⟨uuid, pn, mt, SYNC_PENDING, 0⟩ :: r.1, r.2)

/-- The document-reading loop of cache_open: a failed or invalid id
length byte, a short id read or a short page-count read breaks the loop
without adding the document; after the page loop the document is always
added, and the outer loop continues from wherever the stream was left. -/
def decodeDocsLoop (ver : Nat) : Nat → Bytes → List DocumentEntry
  | 0, _ => []
  | Nat.succ n, bs =>
    match bs with
    | [] => []
    | dl :: bs1 =>
      if dl ≠ UUID_LEN then [] else
      if bs1.length < UUID_LEN then [] else
      let did := cStr (bs1.take UUID_LEN)
      let bs2 := bs1.drop UUID_LEN
      if bs2.length < 2 then [] else
      let np := leVal (bs2.take 2)
      let r := decodePagesLoop ver np (bs2.drop 2)
      ⟨did, r.1⟩ :: decodeDocsLoop ver n r.2

/-- Adding a decoded document to the hash table: prepend at the head of
its hash bucket. -/
def insertDoc (t : List (List DocumentEntry)) (d : DocumentEntry) :
    List (List DocumentEntry) :=
  let h := hash_string d.doc_id
  t.set h (d :: t.getD h [])

/-- The hash table built from the decoded documents in file order. -/
def buildTable (ds : List DocumentEntry) : List (List DocumentEntry) :=
  ds.foldl insertDoc emptyTable

/-- The load procedure of cache_open applied to the file's bytes: any
header problem (short read, bad magic, unsupported version) yields the
empty table — the fresh store cache_open had already built. -/
def cache_open_load (bs : Bytes) : List (List DocumentEntry) :=
  if bs.length < 4 then emptyTable else
  if leVal (bs.take 4) ≠ CACHE_MAGIC then emptyTable else
  match bs.drop 4 with
  | [] => emptyTable
  | ver :: bs1 =>
    if ver ≠ CACHE_VERSION ∧ ver ≠ 1 then emptyTable else
    if bs1.length < 4 then emptyTable else
    buildTable (decodeDocsLoop ver (leVal (bs1.take 4)) (bs1.drop 4))

/-- The page-reading loop of cache_reload — textually the same loop as
in cache_open, kept as a separate definition because the two decode
paths are separate code in the C sources. -/
def decodePagesLoopR (ver : Nat) : Nat → Bytes → List PageEntry × Bytes
  | 0, bs => ([], bs)
  | Nat.succ j, bs =>
    if bs.length < UUID_LEN then ([], []) else
    let uuid := cStr (bs.take UUID_LEN)
    match bs.drop UUID_LEN with
    | [] => ([], [])
    | len :: bs1 =>
      if MAX_PAGE_NUM_LEN ≤ len then ([], bs1) else
      if bs1.length < len then ([], []) else
      let pn := cStr (bs1.take len)
      let bs2 := bs1.drop len
      if bs2.length < 8 then ([], []) else
      let mt := leVal (bs2.take 8)
      let bs3 := bs2.drop 8
      if ver = CACHE_VERSION then
        match bs3 with
        | [] => ([], [])
        | st :: bs4 =>
          match bs4 with
          | [] => ([], [])
          | rc :: bs5 =>
            let r := decodePagesLoopR ver j bs5
            (⟨uuid, pn, mt, st, rc⟩ :: r.1, r.2)
      else
        let r := decodePagesLoopR ver j bs3
        (⟨uuid, pn, mt, SYNC_PENDING, 0⟩ :: r.1, r.2)

/-- The document-reading loop of cache_reload — the reload copy of the
loop in cache_open. -/
def decodeDocsLoopR (ver : Nat) : Nat → Bytes → List DocumentEntry
  | 0, _ => []
  | Nat.succ n, bs =>
    match bs with
    | [] => []
    | dl :: bs1 =>
      if dl ≠ UUID_LEN then [] else
      if bs1.length < UUID_LEN then [] else
      let did := cStr (bs1.take UUID_LEN)
      let bs2 := bs1.drop UUID_LEN
      if bs2.length < 2 then [] else
      let np := leVal (bs2.take 2)
      let r := decodePagesLoopR ver np (bs2.drop 2)
      ⟨did, r.1⟩ :: decodeDocsLoopR ver n r.2

/-- The load procedure of cache_reload applied to the file's bytes: the
in-memory table was already cleared, so a header problem returns `-1`
with the empty table; success returns `0` and the decoded table. -/
def cache_reload_load (bs : Bytes) : Int × List (List DocumentEntry) :=
  if bs.length < 4 then (-1, emptyTable) else
  if leVal (bs.take 4) ≠ CACHE_MAGIC then (-1, emptyTable) else
  match bs.drop 4 with
  | [] => (-1, emptyTable)
  | ver :: bs1 =>
    if ver ≠ CACHE_VERSION ∧ ver ≠ 1 then (-1, emptyTable) else
    if bs1.length < 4 then (-1, emptyTable) else
    (0, buildTable (decodeDocsLoopR ver (leVal (bs1.take 4)) (bs1.drop 4)))

/-- cache_save from cache_io.c over an explicit file-system state
(paths to byte contents).  The environment's fopen and rename outcomes
are the two booleans.  Not dirty: immediate success, nothing touched.
Dirty: the full encoding is written to the `.tmp` sibling; a successful
rename atomically installs it at the real path and clears the temp name
and the dirty flag; a failed rename unlinks the temp file, reports `-1`
and leaves the cache (dirty flag included) and the real path untouched. -/
def cache_save (c : CacheHandle) (fs : String → Option Bytes)
    (fopenOk renameOk : Bool) : Int × CacheHandle × (String → Option Bytes) :=
  if ¬ c.dirty then (0, c, fs)
  else
    let tmp := c.path ++ ".tmp"
    if ¬ fopenOk then (-1, c, fs)
    else
      let fs1 := Function.update fs tmp (some (encodeStore c))
      if renameOk then
        (0, { c with dirty := false },
          Function.update (Function.update fs1 tmp none) c.path (some (encodeStore c)))
      else
        (-1, c, Function.update fs1 tmp none)

/-- Setting the found page's `mtime` field in place (the
`page->mtime = st.st_mtime` line of the watcher's re-sync branch). -/
def setPageMtime (c : CacheHandle) (doc_id page_uuid : Bytes) (mtime : Nat) :
    CacheHandle :=
  let h := hash_string doc_id
  { c with
    table := c.table.set h
      (replaceFirstDoc doc_id
        (fun d => { d with pages := (replaceFirstPage page_uuid
          (fun p => { p with mtime := mtime }) d.pages) })
        (c.table.getD h [])) }

/-- The per-file body of scan_document_pages from watcher.c: a missing
or stale page is upserted as SYNC_PENDING with the freshly observed
mtime; the `else if` re-sync branch for previously uploaded pages is
translated as written (its guard repeats `page->mtime < st.st_mtime`,
contradicting the `else`, so it never fires); otherwise nothing happens. -/
def scan_page_step (c : CacheHandle) (doc_id page_uuid page_num : Bytes)
    (st_mtime : Nat) : CacheHandle :=
  let doc := cache_find_document c doc_id
  let page := match doc with
              | some d => cache_find_page d page_uuid
              | none => none
  match page with
  | none =>
    cache_add_or_update_page c doc_id page_uuid (some page_num) st_mtime SYNC_PENDING
  | some pg =>
    if pg.mtime < st_mtime then
      cache_add_or_update_page c doc_id page_uuid (some page_num) st_mtime SYNC_PENDING
    else if pg.sync_status = SYNC_UPLOADED ∧ pg.mtime < st_mtime then
      match cache_update_page_status c doc_id page_uuid SYNC_PENDING 0 with
      | none => c
      | some c' => setPageMtime c' doc_id page_uuid st_mtime
    else c

/-- The delivery-failure branch of process_pending_pages from
httpclient.c: the `uint8_t` retry count of the fetched page is
incremented (wrapping at 256); reaching `max_retries` marks the page
SYNC_FAILED, otherwise it stays SYNC_PENDING with the new count. -/
def process_failure (max_retries : Nat) (c : CacheHandle)
    (doc_id page_uuid : Bytes) : CacheHandle :=
  match cache_find_document c doc_id with
  | none => c
  | some doc =>
    match cache_find_page doc page_uuid with
    | none => c
    | some pg =>
      let nrc := (pg.retry_count + 1) % 256
      if max_retries ≤ nrc then
        (cache_update_page_status c doc_id page_uuid SYNC_FAILED nrc).getD c
      else
        (cache_update_page_status c doc_id page_uuid SYNC_PENDING nrc).getD c

/-- is_under_shared_path from metadata_parser.c: `"*"` syncs everything;
otherwise strncmp the filter against the path and require the next path
character to be the terminator or `'/'`. -/
def is_under_shared_path (full_path filter : String) : Bool :=
  if filter = "*" then true
  else
    let n := filter.data.length
    if full_path.data.take n ≠ filter.data then false
    else
      match full_path.data.drop n with
      | [] => true
      | ch :: _ => ch = '/'

/-! ## Concrete ids and stores shared by witnesses -/

/-- A 36-byte document id (36 times the byte of the letter a). -/
def didA : Bytes := List.replicate 36 97

/-- A 36-byte page uuid (36 times the byte of the letter b). -/
def uuidB : Bytes := List.replicate 36 98

/-- A store holding one PENDING page with retry count 0, built by the
program's own upsert on a freshly opened cache. -/
def c0 : CacheHandle :=
  cache_add_or_update_page (emptyCache "cache") didA uuidB (some [49]) 100 SYNC_PENDING

/-- The C3 failing store: the page of `c0` driven to SYNC_FAILED with
retry count 3 by the orchestrator's status update. -/
def c3_store : CacheHandle :=
  (cache_update_page_status c0 didA uuidB SYNC_FAILED 3).getD c0

/-- The field constraints the C struct guarantees for every stored page:
the id buffers hold null-free byte strings within their sizes, and the
numeric fields fit their machine widths (`time_t`, `uint8_t`). -/
def WFpage (p : PageEntry) : Prop :=
  p.uuid.length ≤ UUID_LEN ∧ (∀ b ∈ p.uuid, b ≠ 0 ∧ b < 256) ∧
  p.page_num.length < MAX_PAGE_NUM_LEN ∧ (∀ b ∈ p.page_num, b ≠ 0 ∧ b < 256) ∧
  p.mtime < 256 ^ 8 ∧ p.sync_status < 256 ∧ p.retry_count < 256

/-- Struct constraints for a document: id within its buffer, page count
within the `uint16_t` record field, all pages well-formed. -/
def WFdoc (d : DocumentEntry) : Prop :=
  d.doc_id.length ≤ UUID_LEN ∧ (∀ b ∈ d.doc_id, b ≠ 0 ∧ b < 256) ∧
  d.pages.length < 65536 ∧ ∀ p ∈ d.pages, WFpage p

/-- Store constraints: document count within the `uint32_t` header
field, all documents well-formed. -/
def WFstore (c : CacheHandle) : Prop :=
  c.table.flatten.length < 4294967296 ∧ ∀ d ∈ c.table.flatten, WFdoc d

instance (p : PageEntry) : Decidable (WFpage p) := by
  unfold WFpage
  infer_instance

instance (d : DocumentEntry) : Decidable (WFdoc d) := by
  unfold WFdoc
  infer_instance

instance (c : CacheHandle) : Decidable (WFstore c) := by
  unfold WFstore
  infer_instance

/-- The header checks of the load procedure (cache_open lines reading
magic, version and document count): at least 4 magic bytes matching
CACHE_MAGIC, a version byte equal to CACHE_VERSION or 1, and 4 bytes of
document count. -/
def headerOk (bs : Bytes) : Bool :=
  decide (4 ≤ bs.length) && (leVal (bs.take 4) == CACHE_MAGIC) &&
  (match bs.drop 4 with
   | [] => false
   | ver :: bs1 => ((ver == CACHE_VERSION) || (ver == 1)) && decide (4 ≤ bs1.length))

/-- A concrete version-1 cache file: one document, one legacy page
record (no status bytes). -/
def v1Bytes : Bytes :=
  leBytes 4 CACHE_MAGIC ++ 1 ::
    (leBytes 4 1 ++ (UUID_LEN :: (padTo UUID_LEN didA ++
      (leBytes 2 1 ++ (padTo UUID_LEN uuidB ++ 1 :: ([49] ++ leBytes 8 100))))))

/-! ## General list helpers -/

theorem getD_set_self {α : Type} (l : List α) (i : Nat) (b dflt : α)
    (h : i < l.length) : (l.set i b).getD i dflt = b := by
  simp [List.getD, List.getElem?_set_self h]

theorem getD_set_ne {α : Type} (l : List α) (i j : Nat) (b dflt : α)
    (h : i ≠ j) : (l.set i b).getD j dflt = l.getD j dflt := by
  simp [List.getD, List.getElem?_set_ne h]

theorem hash_string_lt (s : Bytes) : hash_string s < HASH_TABLE_SIZE :=
  Nat.mod_lt _ (by decide)


/-! ## C6: path filter -/

/-- C6: the path-filter predicate.  `is_under_shared_path` returns true
when the filter is `"*"`; for any other filter it returns true exactly
when the filter is a prefix of the path that ends at a path-component
boundary (end of string or a following `'/'`), so `"Work"` matches
`"Work"` and `"Work/Projects"` but not `"Workspace"`. -/
theorem c6_path_filter (full_path filter : String) :
    (filter = "*" → is_under_shared_path full_path filter = true) ∧
    (filter ≠ "*" →
      (is_under_shared_path full_path filter = true ↔
        (filter.data = full_path.data.take filter.data.length ∧
          (full_path.data.drop filter.data.length = [] ∨
           (full_path.data.drop filter.data.length).head? = some '/')))) ∧
    is_under_shared_path "Work" "Work" = true ∧
    is_under_shared_path "Work/Projects" "Work" = true ∧
    is_under_shared_path "Workspace" "Work" = false := by
  refine ⟨fun h => by simp [is_under_shared_path, h], fun h => ?_, by decide, by decide, by decide⟩
  simp only [is_under_shared_path, if_neg h]
  by_cases hpre : full_path.data.take filter.data.length = filter.data
  · rw [if_neg (not_not_intro hpre)]
    cases hdrop : full_path.data.drop filter.data.length with
    | nil => exact iff_of_true rfl ⟨hpre.symm, Or.inl rfl⟩
    | cons ch rest =>
      constructor
      · intro hch
        have hc : ch = '/' := by simpa using hch
        exact ⟨hpre.symm, Or.inr (by rw [List.head?_cons, hc])⟩
      · rintro ⟨-, h2 | h2⟩
        · exact absurd h2 (List.cons_ne_nil ch rest)
        · rw [List.head?_cons] at h2
          simpa using Option.some.inj h2
  · rw [if_pos hpre]
    constructor
    · intro h'; exact absurd h' Bool.false_ne_true
    · rintro ⟨h1, -⟩; exact absurd h1.symm hpre

/-- C6 witness: the filter `"Work"` on the path `"Work/Projects"` — the
equivalence instantiated at a concrete non-star filter. -/
theorem c6_witness :
    is_under_shared_path "Work/Projects" "Work" = true ↔
      ("Work".data = "Work/Projects".data.take "Work".data.length ∧
        ("Work/Projects".data.drop "Work".data.length = [] ∨
         ("Work/Projects".data.drop "Work".data.length).head? = some '/')) :=
  (c6_path_filter "Work/Projects" "Work").2.1 (by decide)

/-! ## C3: the scanner does not reset retry_count on content change -/


/-- C3: at the failing input — page recorded with mtime 100, status
FAILED, retry count 3, and an on-disk modification time 200 — the
scanner's per-file step marks the page PENDING with the new mtime but
leaves `retry_count` at 3: the reset to 0 promised by the spec does not
happen (the watcher's re-sync branch that would perform a reset is
unreachable, its guard contradicting the branch above it). -/
theorem c3_scanner_no_retry_reset :
    ((cache_find_document (scan_page_step c3_store didA uuidB [49] 200) didA).bind
        (fun d => cache_find_page d uuidB)) =
      some ⟨uuidB, [49], 200, SYNC_PENDING, 3⟩ ∧
    (((cache_find_document (scan_page_step c3_store didA uuidB [49] 200) didA).bind
        (fun d => cache_find_page d uuidB)).map PageEntry.retry_count) ≠ some 0 := by
  constructor
  · decide
  · decide

/-! ## C10: pending-page selection -/

theorem pendingFromPages_eq (q : Nat) (ps : List PageEntry) :
    pendingFromPages q ps =
      (q - (ps.filter (fun p => p.sync_status == SYNC_PENDING)).length,
       (ps.filter (fun p => p.sync_status == SYNC_PENDING)).take q) := by
  induction ps generalizing q with
  | nil => simp [pendingFromPages]
  | cons p ps ih =>
    cases q with
    | zero => simp [pendingFromPages]
    | succ q' =>
      by_cases hp : p.sync_status = SYNC_PENDING
      · simp [pendingFromPages, hp, ih, List.filter_cons, Nat.succ_sub_succ]
      · simp [pendingFromPages, hp, ih, List.filter_cons]

theorem pendingFromDocs_eq (q : Nat) (ds : List DocumentEntry) :
    pendingFromDocs q ds =
      (q - (((ds.map DocumentEntry.pages).flatten).filter
              (fun p => p.sync_status == SYNC_PENDING)).length,
       (((ds.map DocumentEntry.pages).flatten).filter
              (fun p => p.sync_status == SYNC_PENDING)).take q) := by
  induction ds generalizing q with
  | nil => simp [pendingFromDocs]
  | cons d ds ih =>
    cases q with
    | zero => simp [pendingFromDocs]
    | succ q' =>
      simp only [pendingFromDocs, Nat.succ_ne_zero, if_false, pendingFromPages_eq, ih,
        List.map_cons, List.flatten_cons, List.filter_append, List.length_append,
        List.take_append_eq_append_take, List.length_take]
      simp only [Prod.mk.injEq]
      exact ⟨by omega, trivial⟩

theorem pendingFromBuckets_eq (q : Nat) (bs : List (List DocumentEntry)) :
    pendingFromBuckets q bs =
      (q - ((bs.map (fun b => (b.map DocumentEntry.pages).flatten)).flatten.filter
              (fun p => p.sync_status == SYNC_PENDING)).length,
       ((bs.map (fun b => (b.map DocumentEntry.pages).flatten)).flatten.filter
              (fun p => p.sync_status == SYNC_PENDING)).take q) := by
  induction bs generalizing q with
  | nil => simp [pendingFromBuckets]
  | cons b bs ih =>
    cases q with
    | zero => simp [pendingFromBuckets]
    | succ q' =>
      simp only [pendingFromBuckets, Nat.succ_ne_zero, if_false, pendingFromDocs_eq, ih,
        List.map_cons, List.flatten_cons, List.filter_append, List.length_append,
        List.take_append_eq_append_take, List.length_take]
      simp only [Prod.mk.injEq]
      exact ⟨by omega, trivial⟩

theorem allPages_flatten (tbl : List (List DocumentEntry)) :
    ((tbl.flatten).map DocumentEntry.pages).flatten =
      (tbl.map (fun b => (b.map DocumentEntry.pages).flatten)).flatten := by
  induction tbl with
  | nil => rfl
  | cons b bs ih =>
    simp only [List.flatten_cons, List.map_append, List.flatten_append, List.map_cons, ih]

/-- The positive-limit result of cache_get_pending_pages is the first
`limit` pages of the PENDING-filtered scan order. -/
theorem cache_get_pending_pages_pos (c : CacheHandle) (lim : Int) (h : 0 < lim) :
    cache_get_pending_pages c lim =
      some (((allPages c).filter (fun p => p.sync_status == SYNC_PENDING)).take lim.toNat) := by
  rw [cache_get_pending_pages, if_neg (by omega), pendingFromBuckets_eq]
  rw [allPages, allPages_flatten]

/-- Every page the selection returns is PENDING (shared helper). -/
theorem pending_pages_status (c : CacheHandle) (lim : Int) (l : List PageEntry)
    (h : cache_get_pending_pages c lim = some l) :
    ∀ p ∈ l, p.sync_status = SYNC_PENDING := by
  intro p hp
  by_cases hl : 0 < lim
  · rw [cache_get_pending_pages_pos c lim hl] at h
    have hmem := Option.some.inj h ▸ hp
    have := List.mem_filter.mp ((List.take_sublist _ _).subset hmem)
    simpa using this.2
  · rw [cache_get_pending_pages, if_pos (by omega)] at h
    cases h

/-- C10: a non-positive limit returns no result array at all (the C
NULL); a positive limit returns exactly the first `limit` pages of the
PENDING-filtered bucket/insertion scan order — hence at most `limit`
entries, each PENDING, occurring as a sublist (distinct nodes) of the
store's pages; the selection itself never mutates the store (it is a
pure read in this model, as in the C code). -/
theorem c10_pending_selection (c : CacheHandle) (lim : Int) :
    (lim ≤ 0 → cache_get_pending_pages c lim = none) ∧
    (0 < lim →
      ∃ l, cache_get_pending_pages c lim = some l ∧
        l = ((allPages c).filter (fun p => p.sync_status == SYNC_PENDING)).take lim.toNat ∧
        l.length ≤ lim.toNat ∧
        (∀ p ∈ l, p.sync_status = SYNC_PENDING) ∧
        l.Sublist (allPages c)) := by
  constructor
  · intro h
    rw [cache_get_pending_pages, if_pos h]
  · intro h
    refine ⟨_, cache_get_pending_pages_pos c lim h, rfl, ?_, ?_, ?_⟩
    · rw [List.length_take]
      exact min_le_left _ _
    · exact pending_pages_status c lim _ (cache_get_pending_pages_pos c lim h)
    · exact (List.take_sublist _ _).trans (List.filter_sublist _)

/-- C10 witness: the selection on the one-PENDING-page store `c0` with
limit 2, and the empty answer for limit 0. -/
theorem c10_witness :
    cache_get_pending_pages c0 0 = none ∧
    ∃ l, cache_get_pending_pages c0 2 = some l ∧
      l = ((allPages c0).filter (fun p => p.sync_status == SYNC_PENDING)).take (2 : Int).toNat ∧
      l.length ≤ (2 : Int).toNat ∧
      (∀ p ∈ l, p.sync_status = SYNC_PENDING) ∧
      l.Sublist (allPages c0) :=
  ⟨(c10_pending_selection c0 0).1 (by decide),
   (c10_pending_selection c0 2).2 (by decide)⟩

/-! ## C1: retry policy -/

theorem find_cons_pos {α : Type} (p : α → Bool) (a : α) (l : List α)
    (h : p a = true) : List.find? p (a :: l) = some a := by
  simp [List.find?_cons, h]

theorem find_cons_neg {α : Type} (p : α → Bool) (a : α) (l : List α)
    (h : p a = false) : List.find? p (a :: l) = List.find? p l := by
  simp [List.find?_cons, h]

theorem updStatusPages_find (uuid : Bytes) (st rc : Nat) (ps : List PageEntry)
    (pg : PageEntry) (h : ps.find? (fun p => p.uuid == uuid) = some pg) :
    ∃ ps', updStatusPages uuid st rc ps = some ps' ∧
      ps'.find? (fun p => p.uuid == uuid) =
        some { pg with sync_status := st % 256, retry_count := rc % 256 } := by
  induction ps with
  | nil => cases h
  | cons p ps ih =>
    by_cases hp : (p.uuid == uuid) = true
    · rw [find_cons_pos (fun q => q.uuid == uuid) p ps hp] at h
      obtain rfl := Option.some.inj h
      refine ⟨{ p with sync_status := st % 256, retry_count := rc % 256 } :: ps, ?_, ?_⟩
      · simp [updStatusPages, hp]
      · exact find_cons_pos (fun q => q.uuid == uuid)
          { p with sync_status := st % 256, retry_count := rc % 256 } ps hp
    · rw [find_cons_neg (fun q => q.uuid == uuid) p ps (by simpa using hp)] at h
      obtain ⟨ps', h1, h2⟩ := ih h
      refine ⟨p :: ps', by simp [updStatusPages, hp, h1], ?_⟩
      rw [find_cons_neg (fun q => q.uuid == uuid) p ps' (by simpa using hp)]
      exact h2

theorem updStatusDocs_find (did uuid : Bytes) (st rc : Nat)
    (ds : List DocumentEntry) (doc : DocumentEntry) (pg : PageEntry)
    (hd : ds.find? (fun d => d.doc_id == did) = some doc)
    (hp : doc.pages.find? (fun p => p.uuid == uuid) = some pg) :
    ∃ ds' ps', updStatusDocs did uuid st rc ds = some ds' ∧
      ds'.find? (fun d => d.doc_id == did) = some { doc with pages := ps' } ∧
      ps'.find? (fun p => p.uuid == uuid) =
        some { pg with sync_status := st % 256, retry_count := rc % 256 } := by
  induction ds with
  | nil => cases hd
  | cons d ds ih =>
    by_cases hdd : (d.doc_id == did) = true
    · rw [find_cons_pos (fun x => x.doc_id == did) d ds hdd] at hd
      obtain rfl := Option.some.inj hd
      obtain ⟨ps', h1, h2⟩ := updStatusPages_find uuid st rc d.pages pg hp
      refine ⟨{ d with pages := ps' } :: ds, ps', ?_, ?_, h2⟩
      · simp [updStatusDocs, hdd, h1]
      · exact find_cons_pos (fun x => x.doc_id == did) { d with pages := ps' } ds hdd
    · rw [find_cons_neg (fun x => x.doc_id == did) d ds (by simpa using hdd)] at hd
      obtain ⟨ds', ps', h1, h2, h3⟩ := ih hd
      refine ⟨d :: ds', ps', by simp [updStatusDocs, hdd, h1], ?_, h3⟩
      rw [find_cons_neg (fun x => x.doc_id == did) d ds' (by simpa using hdd)]
      exact h2

theorem cache_update_page_status_find (c : CacheHandle) (did uuid : Bytes)
    (st rc : Nat) (doc : DocumentEntry) (pg : PageEntry)
    (hlen : c.table.length = HASH_TABLE_SIZE)
    (hd : cache_find_document c did = some doc)
    (hp : cache_find_page doc uuid = some pg) :
    ∃ c', cache_update_page_status c did uuid st rc = some c' ∧
      c'.table.length = HASH_TABLE_SIZE ∧ c'.dirty = true ∧ c'.path = c.path ∧
      ∃ ps', cache_find_document c' did = some { doc with pages := ps' } ∧
        cache_find_page { doc with pages := ps' } uuid =
          some { pg with sync_status := st % 256, retry_count := rc % 256 } := by
  rw [cache_find_document] at hd
  rw [cache_find_page] at hp
  obtain ⟨ds', ps', h1, h2, h3⟩ := updStatusDocs_find did uuid st rc _ doc pg hd hp
  refine ⟨{ c with table := c.table.set (hash_string did) ds', dirty := true },
    ?_, by simp [List.length_set, hlen], rfl, rfl, ps', ?_, h3⟩
  · show (match updStatusDocs did uuid st rc (c.table.getD (hash_string did) []) with
      | none => none
      | some b => some { c with table := c.table.set (hash_string did) b, dirty := true }) = _
    rw [h1]
  · show ((c.table.set (hash_string did) ds').getD (hash_string did) []).find? _ = _
    rw [getD_set_self _ _ _ _ (by rw [hlen]; exact hash_string_lt did)]
    exact h2

theorem process_failure_pending (maxR : Nat) (c : CacheHandle) (did uuid : Bytes)
    (doc : DocumentEntry) (pg : PageEntry)
    (hlen : c.table.length = HASH_TABLE_SIZE)
    (hd : cache_find_document c did = some doc)
    (hp : cache_find_page doc uuid = some pg)
    (hlt : ¬ maxR ≤ (pg.retry_count + 1) % 256) :
    ∃ c' ps',
      process_failure maxR c did uuid = c' ∧
      c'.table.length = HASH_TABLE_SIZE ∧
      cache_find_document c' did = some { doc with pages := ps' } ∧
      cache_find_page { doc with pages := ps' } uuid =
        some { pg with sync_status := SYNC_PENDING,
                       retry_count := (pg.retry_count + 1) % 256 } := by
  obtain ⟨c', heq, hlen', _, _, ps', hfd, hfp⟩ :=
    cache_update_page_status_find c did uuid SYNC_PENDING ((pg.retry_count + 1) % 256)
      doc pg hlen hd hp
  refine ⟨c', ps', ?_, hlen', hfd, ?_⟩
  · simp only [process_failure, hd, hp, if_neg hlt, heq, Option.getD_some]
  · rw [hfp]
    congr 2
    exact Nat.mod_eq_of_lt (Nat.mod_lt _ (by decide))

theorem process_failure_failed (maxR : Nat) (c : CacheHandle) (did uuid : Bytes)
    (doc : DocumentEntry) (pg : PageEntry)
    (hlen : c.table.length = HASH_TABLE_SIZE)
    (hd : cache_find_document c did = some doc)
    (hp : cache_find_page doc uuid = some pg)
    (hge : maxR ≤ (pg.retry_count + 1) % 256) :
    ∃ c' ps',
      process_failure maxR c did uuid = c' ∧
      c'.table.length = HASH_TABLE_SIZE ∧
      cache_find_document c' did = some { doc with pages := ps' } ∧
      cache_find_page { doc with pages := ps' } uuid =
        some { pg with sync_status := SYNC_FAILED,
                       retry_count := (pg.retry_count + 1) % 256 } := by
  obtain ⟨c', heq, hlen', _, _, ps', hfd, hfp⟩ :=
    cache_update_page_status_find c did uuid SYNC_FAILED ((pg.retry_count + 1) % 256)
      doc pg hlen hd hp
  refine ⟨c', ps', ?_, hlen', hfd, ?_⟩
  · simp only [process_failure, hd, hp, if_pos hge, heq, Option.getD_some]
  · rw [hfp]
    congr 2
    exact Nat.mod_eq_of_lt (Nat.mod_lt _ (by decide))

/-- C1 amended: with `max_retries = 3` and a PENDING page at retry
count 0, the first two delivery failures leave the page PENDING with
retry counts 1 and 2; the third failure already moves it to FAILED with
`retry_count = 3` (the code tests `new_retry_count >= max_retries`), and
once FAILED the page value is never returned by pending-page selection,
so no further delivery attempt is made for it. -/
theorem c1_retry_policy (c : CacheHandle) (did uuid : Bytes)
    (doc : DocumentEntry) (pg : PageEntry)
    (hlen : c.table.length = HASH_TABLE_SIZE)
    (hd : cache_find_document c did = some doc)
    (hp : cache_find_page doc uuid = some pg)
    (hst : pg.sync_status = SYNC_PENDING)
    (hrc : pg.retry_count = 0) :
    ∃ c1 doc1 pg1 c2 doc2 pg2 c3 doc3 pg3,
      process_failure 3 c did uuid = c1 ∧
      cache_find_document c1 did = some doc1 ∧
      cache_find_page doc1 uuid = some pg1 ∧
      pg1.sync_status = SYNC_PENDING ∧ pg1.retry_count = 1 ∧
      process_failure 3 c1 did uuid = c2 ∧
      cache_find_document c2 did = some doc2 ∧
      cache_find_page doc2 uuid = some pg2 ∧
      pg2.sync_status = SYNC_PENDING ∧ pg2.retry_count = 2 ∧
      process_failure 3 c2 did uuid = c3 ∧
      cache_find_document c3 did = some doc3 ∧
      cache_find_page doc3 uuid = some pg3 ∧
      pg3.sync_status = SYNC_FAILED ∧ pg3.retry_count = 3 ∧
      ∀ (lim : Int) (l : List PageEntry),
        cache_get_pending_pages c3 lim = some l → pg3 ∉ l := by
  obtain ⟨c1, ps1, heq1, hlen1, hfd1, hfp1⟩ :=
    process_failure_pending 3 c did uuid doc pg hlen hd hp (by rw [hrc]; decide)
  have hrc1 :
      ({ pg with sync_status := SYNC_PENDING, retry_count := (pg.retry_count + 1) % 256 } :
        PageEntry).retry_count = 1 := by
    simp [hrc]
  obtain ⟨c2, ps2, heq2, hlen2, hfd2, hfp2⟩ :=
    process_failure_pending 3 c1 did uuid _ _ hlen1 hfd1 hfp1 (by rw [hrc1]; decide)
  have hrc2 : ∀ q : PageEntry, q.retry_count = 1 →
      ({ q with sync_status := SYNC_PENDING, retry_count := (q.retry_count + 1) % 256 } :
        PageEntry).retry_count = 2 := by
    intro q hq; simp [hq]
  obtain ⟨c3, ps3, heq3, hlen3, hfd3, hfp3⟩ :=
    process_failure_failed 3 c2 did uuid _ _ hlen2 hfd2 hfp2
      (by rw [hrc2 _ hrc1])
  have hrc3 : ∀ q : PageEntry, q.retry_count = 2 →
      ({ q with sync_status := SYNC_FAILED, retry_count := (q.retry_count + 1) % 256 } :
        PageEntry).retry_count = 3 := by
    intro q hq; simp [hq]
  refine ⟨c1, _, _, c2, _, _, c3, _, _, heq1, hfd1, hfp1, rfl, hrc1,
    heq2, hfd2, hfp2, rfl, hrc2 _ hrc1,
    heq3, hfd3, hfp3, rfl, hrc3 _ (hrc2 _ hrc1), ?_⟩
  intro lim l hsel hmem
  have := pending_pages_status c3 lim l hsel _ hmem
  simp [SYNC_FAILED, SYNC_PENDING] at this

/-- C1 counterexample: on the concrete store `c0` (one PENDING page,
retry 0) with `max_retries = 3`, already the third delivery failure
leaves the page FAILED with retry count 3 — not PENDING as the claim
asserts for the first three failures. -/
theorem c1_counterexample :
    (((cache_find_document
          (process_failure 3 (process_failure 3 (process_failure 3 c0 didA uuidB)
            didA uuidB) didA uuidB) didA).bind
        (fun d => cache_find_page d uuidB)).map
      (fun p => (p.sync_status, p.retry_count))) = some (SYNC_FAILED, 3) ∧
    ¬ (((cache_find_document
          (process_failure 3 (process_failure 3 (process_failure 3 c0 didA uuidB)
            didA uuidB) didA uuidB) didA).bind
        (fun d => cache_find_page d uuidB)).map
      (fun p => p.sync_status)) = some SYNC_PENDING := by
  constructor
  · decide
  · decide

/-- C1 witness: the amended retry policy instantiated on the concrete
one-page store `c0`. -/
theorem c1_witness :
    ∃ c1 doc1 pg1 c2 doc2 pg2 c3 doc3 pg3,
      process_failure 3 c0 didA uuidB = c1 ∧
      cache_find_document c1 didA = some doc1 ∧
      cache_find_page doc1 uuidB = some pg1 ∧
      pg1.sync_status = SYNC_PENDING ∧ pg1.retry_count = 1 ∧
      process_failure 3 c1 didA uuidB = c2 ∧
      cache_find_document c2 didA = some doc2 ∧
      cache_find_page doc2 uuidB = some pg2 ∧
      pg2.sync_status = SYNC_PENDING ∧ pg2.retry_count = 2 ∧
      process_failure 3 c2 didA uuidB = c3 ∧
      cache_find_document c3 didA = some doc3 ∧
      cache_find_page doc3 uuidB = some pg3 ∧
      pg3.sync_status = SYNC_FAILED ∧ pg3.retry_count = 3 ∧
      ∀ (lim : Int) (l : List PageEntry),
        cache_get_pending_pages c3 lim = some l → pg3 ∉ l :=
  c1_retry_policy c0 didA uuidB ⟨didA, [⟨uuidB, [49], 100, 0, 0⟩]⟩
    ⟨uuidB, [49], 100, 0, 0⟩ (by decide) (by decide) (by decide) (by decide) (by decide)

/-! ## C7: save protocol -/

theorem path_ne_tmp (p : String) : p ≠ p ++ ".tmp" := by
  intro h
  have hlen := congrArg String.length h
  rw [String.length_append] at hlen
  have h4 : ".tmp".length = 4 := rfl
  omega

/-- C7: `save()` is a no-op returning success when the store is not
dirty.  When dirty, the full encoded state is written to the `.tmp`
sibling and atomically renamed over the real path (which then holds
exactly the encoding, with the dirty flag cleared); when the rename
fails, `-1` is reported, the temporary file is removed, the cache —
dirty flag included — is untouched, and the previously persisted bytes
at the real path are unchanged. -/
theorem c7_save_protocol (c : CacheHandle) (fs : String → Option Bytes)
    (fopenOk renameOk : Bool) :
    (c.dirty = false → cache_save c fs fopenOk renameOk = (0, c, fs)) ∧
    (c.dirty = true → fopenOk = true → renameOk = true →
      (cache_save c fs fopenOk renameOk).1 = 0 ∧
      (cache_save c fs fopenOk renameOk).2.1 = { c with dirty := false } ∧
      (cache_save c fs fopenOk renameOk).2.2 c.path = some (encodeStore c)) ∧
    (c.dirty = true → fopenOk = true → renameOk = false →
      (cache_save c fs fopenOk renameOk).1 = -1 ∧
      (cache_save c fs fopenOk renameOk).2.1 = c ∧
      (cache_save c fs fopenOk renameOk).2.1.dirty = true ∧
      (cache_save c fs fopenOk renameOk).2.2 (c.path ++ ".tmp") = none ∧
      (cache_save c fs fopenOk renameOk).2.2 c.path = fs c.path) := by
  refine ⟨fun hnd => ?_, fun hd hf hr => ?_, fun hd hf hr => ?_⟩
  · simp [cache_save, hnd]
  · have hs : cache_save c fs fopenOk renameOk =
        (0, { c with dirty := false },
          Function.update (Function.update (Function.update fs (c.path ++ ".tmp")
            (some (encodeStore c))) (c.path ++ ".tmp") none) c.path (some (encodeStore c))) := by
      simp [cache_save, hd, hf, hr]
    rw [hs]
    exact ⟨rfl, rfl, Function.update_same _ _ _⟩
  · have hs : cache_save c fs fopenOk renameOk =
        (-1, c, Function.update (Function.update fs (c.path ++ ".tmp")
          (some (encodeStore c))) (c.path ++ ".tmp") none) := by
      simp [cache_save, hd, hf, hr]
    rw [hs]
    exact ⟨rfl, rfl, hd, Function.update_same _ _ _,
      (Function.update_noteq (path_ne_tmp c.path) _ _).trans
        (Function.update_noteq (path_ne_tmp c.path) _ _)⟩

/-- C7 witness: the protocol instantiated on the dirty one-page store
`c0` with a failing rename, and on a clean store as the no-op case. -/
theorem c7_witness :
    cache_save (emptyCache "cache") (fun _ => none) true true =
      (0, emptyCache "cache", fun _ => none) ∧
    ((cache_save c0 (fun _ => none) true false).1 = -1 ∧
      (cache_save c0 (fun _ => none) true false).2.1 = c0 ∧
      (cache_save c0 (fun _ => none) true false).2.1.dirty = true ∧
      (cache_save c0 (fun _ => none) true false).2.2 (c0.path ++ ".tmp") = none ∧
      (cache_save c0 (fun _ => none) true false).2.2 c0.path = (fun _ => none) c0.path) :=
  ⟨(c7_save_protocol (emptyCache "cache") (fun _ => none) true true).1 rfl,
   (c7_save_protocol c0 (fun _ => none) true false).2.2 rfl rfl rfl⟩

/-! ## C9: frame property of upsert on an existing page -/

theorem replaceFirstPage_append (page_uuid : Bytes) (f : PageEntry → PageEntry)
    (ps1 : List PageEntry) (pg : PageEntry) (ps2 : List PageEntry)
    (h1 : ∀ x ∈ ps1, (x.uuid == page_uuid) = false)
    (h2 : (pg.uuid == page_uuid) = true) :
    replaceFirstPage page_uuid f (ps1 ++ pg :: ps2) = ps1 ++ f pg :: ps2 := by
  induction ps1 with
  | nil => simp [replaceFirstPage, h2]
  | cons x ps1 ih =>
    have hx := h1 x (by simp)
    simp only [List.cons_append, replaceFirstPage, hx, Bool.false_eq_true, if_false,
      List.cons.injEq, true_and]
    exact ih (fun y hy => h1 y (by simp [hy]))

theorem replaceFirstDoc_append (doc_id : Bytes) (f : DocumentEntry → DocumentEntry)
    (ds1 : List DocumentEntry) (doc : DocumentEntry) (ds2 : List DocumentEntry)
    (h1 : ∀ x ∈ ds1, (x.doc_id == doc_id) = false)
    (h2 : (doc.doc_id == doc_id) = true) :
    replaceFirstDoc doc_id f (ds1 ++ doc :: ds2) = ds1 ++ f doc :: ds2 := by
  induction ds1 with
  | nil => simp [replaceFirstDoc, h2]
  | cons x ds1 ih =>
    have hx := h1 x (by simp)
    simp only [List.cons_append, replaceFirstDoc, hx, Bool.false_eq_true, if_false,
      List.cons.injEq, true_and]
    exact ih (fun y hy => h1 y (by simp [hy]))

/-- C9: on an existing page, upsert rewrites exactly that page in place
— its `page_num` (only when a non-null argument is supplied), `mtime`
and `sync_status` — marks the store dirty, preserves the page's
`retry_count` and uuid, and leaves every other page, document and
bucket untouched (the surrounding lists `ds1`, `ds2`, `ps1`, `ps2` are
carried over unchanged). -/
theorem c9_upsert_frame (c : CacheHandle) (did uuid : Bytes) (pn : Option Bytes)
    (mt st : Nat) (doc : DocumentEntry) (pg : PageEntry)
    (hd : cache_find_document c did = some doc)
    (hp : cache_find_page doc uuid = some pg) :
    ∃ ds1 ds2 ps1 ps2,
      c.table.getD (hash_string did) [] = ds1 ++ doc :: ds2 ∧
      doc.pages = ps1 ++ pg :: ps2 ∧
      cache_add_or_update_page c did uuid pn mt st =
        { c with
          dirty := true
          table := c.table.set (hash_string did)
            (ds1 ++ { doc with pages := ps1 ++ updatePageFields pn mt st pg :: ps2 } :: ds2) } ∧
      (updatePageFields pn mt st pg).retry_count = pg.retry_count ∧
      (updatePageFields pn mt st pg).uuid = pg.uuid ∧
      (updatePageFields pn mt st pg).mtime = mt ∧
      (updatePageFields pn mt st pg).sync_status = st % 256 ∧
      (updatePageFields pn mt st pg).page_num =
        (match pn with
         | some s => s.take (MAX_PAGE_NUM_LEN - 1)
         | none => pg.page_num) ∧
      (∀ i, i ≠ hash_string did →
        (cache_add_or_update_page c did uuid pn mt st).table.getD i [] =
          c.table.getD i []) := by
  rw [cache_find_document] at hd
  rw [cache_find_page] at hp
  obtain ⟨hpgd, ds1, ds2, hbeq, hds1⟩ := List.find?_eq_some.mp hd
  obtain ⟨hpgp, ps1, ps2, hpeq, hps1⟩ := List.find?_eq_some.mp hp
  have hds1' : ∀ x ∈ ds1, (x.doc_id == did) = false := fun x hx => by
    simpa using hds1 x hx
  have hps1' : ∀ x ∈ ps1, (x.uuid == uuid) = false := fun x hx => by
    simpa using hps1 x hx
  have hanyd : ((ds1 ++ doc :: ds2).any fun d => d.doc_id == did) = true :=
    List.any_eq_true.mpr ⟨doc, by simp, hpgd⟩
  have hanyp : ((ps1 ++ pg :: ps2).any fun p => p.uuid == uuid) = true :=
    List.any_eq_true.mpr ⟨pg, by simp, hpgp⟩
  have hpages : upsertPagesList uuid pn mt st doc.pages =
      ps1 ++ updatePageFields pn mt st pg :: ps2 := by
    rw [hpeq, upsertPagesList, if_pos hanyp]
    exact replaceFirstPage_append uuid _ ps1 pg ps2 hps1' hpgp
  have hbucket : upsertBucket did uuid pn mt st (c.table.getD (hash_string did) []) =
      ds1 ++ { doc with pages := ps1 ++ updatePageFields pn mt st pg :: ps2 } :: ds2 := by
    rw [hbeq, upsertBucket, if_pos hanyd,
      replaceFirstDoc_append did _ ds1 doc ds2 hds1' hpgd, hpages]
  refine ⟨ds1, ds2, ps1, ps2, hbeq, hpeq, ?_, rfl, rfl, rfl, rfl, rfl, ?_⟩
  · show ({ c with
      table := c.table.set (hash_string did)
        (upsertBucket did uuid pn mt st (c.table.getD (hash_string did) []))
      dirty := true } : CacheHandle) = _
    rw [hbucket]
  · intro i hi
    show (c.table.set (hash_string did) _).getD i [] = _
    exact getD_set_ne _ _ _ _ _ (fun h => hi h.symm)

/-- C9 witness: the frame property applied to the one-page store `c0`,
updating the page with a fresh mtime and a null page-number argument. -/
theorem c9_witness :
    ∃ ds1 ds2 ps1 ps2,
      c0.table.getD (hash_string didA) [] = ds1 ++ (⟨didA, [⟨uuidB, [49], 100, 0, 0⟩]⟩ : DocumentEntry) :: ds2 ∧
      (⟨didA, [⟨uuidB, [49], 100, 0, 0⟩]⟩ : DocumentEntry).pages = ps1 ++ (⟨uuidB, [49], 100, 0, 0⟩ : PageEntry) :: ps2 ∧
      cache_add_or_update_page c0 didA uuidB none 200 SYNC_PENDING =
        { c0 with
          dirty := true
          table := c0.table.set (hash_string didA)
            (ds1 ++ { (⟨didA, [⟨uuidB, [49], 100, 0, 0⟩]⟩ : DocumentEntry) with
              pages := ps1 ++ updatePageFields none 200 SYNC_PENDING ⟨uuidB, [49], 100, 0, 0⟩ :: ps2 } :: ds2) } ∧
      (updatePageFields none 200 SYNC_PENDING ⟨uuidB, [49], 100, 0, 0⟩).retry_count =
        (⟨uuidB, [49], 100, 0, 0⟩ : PageEntry).retry_count ∧
      (updatePageFields none 200 SYNC_PENDING ⟨uuidB, [49], 100, 0, 0⟩).uuid =
        (⟨uuidB, [49], 100, 0, 0⟩ : PageEntry).uuid ∧
      (updatePageFields none 200 SYNC_PENDING ⟨uuidB, [49], 100, 0, 0⟩).mtime = 200 ∧
      (updatePageFields none 200 SYNC_PENDING ⟨uuidB, [49], 100, 0, 0⟩).sync_status = SYNC_PENDING % 256 ∧
      (updatePageFields none 200 SYNC_PENDING ⟨uuidB, [49], 100, 0, 0⟩).page_num =
        (match (none : Option Bytes) with
         | some s => s.take (MAX_PAGE_NUM_LEN - 1)
         | none => (⟨uuidB, [49], 100, 0, 0⟩ : PageEntry).page_num) ∧
      (∀ i, i ≠ hash_string didA →
        (cache_add_or_update_page c0 didA uuidB none 200 SYNC_PENDING).table.getD i [] =
          c0.table.getD i []) :=
  c9_upsert_frame c0 didA uuidB none 200 SYNC_PENDING
    ⟨didA, [⟨uuidB, [49], 100, 0, 0⟩]⟩ ⟨uuidB, [49], 100, 0, 0⟩ (by decide) (by decide)

/-! ## C8: idempotence of upsert -/

theorem updatePageFields_idem (pn : Option Bytes) (mt st : Nat) (p : PageEntry) :
    updatePageFields pn mt st (updatePageFields pn mt st p) =
      updatePageFields pn mt st p := by
  cases pn <;> simp [updatePageFields]

theorem replaceFirstPage_any (page_uuid : Bytes) (f : PageEntry → PageEntry)
    (hkeep : ∀ q, (f q).uuid = q.uuid) (ps : List PageEntry) :
    ((replaceFirstPage page_uuid f ps).any fun p => p.uuid == page_uuid) =
      (ps.any fun p => p.uuid == page_uuid) := by
  induction ps with
  | nil => rfl
  | cons p ps ih =>
    by_cases hp : (p.uuid == page_uuid) = true
    · simp [replaceFirstPage, hp, hkeep]
    · simp [replaceFirstPage, hp, ih]

theorem replaceFirstPage_idem (page_uuid : Bytes) (f : PageEntry → PageEntry)
    (hkeep : ∀ q, (f q).uuid = q.uuid) (hff : ∀ q, f (f q) = f q)
    (ps : List PageEntry) :
    replaceFirstPage page_uuid f (replaceFirstPage page_uuid f ps) =
      replaceFirstPage page_uuid f ps := by
  induction ps with
  | nil => rfl
  | cons p ps ih =>
    by_cases hp : (p.uuid == page_uuid) = true
    · simp [replaceFirstPage, hp, hkeep, hff]
    · simp [replaceFirstPage, hp, ih]

theorem upsertPagesList_idem (page_uuid : Bytes) (pn : Option Bytes) (mt st : Nat)
    (h36 : page_uuid.take UUID_LEN = page_uuid) (ps : List PageEntry) :
    upsertPagesList page_uuid pn mt st (upsertPagesList page_uuid pn mt st ps) =
      upsertPagesList page_uuid pn mt st ps := by
  have hkeep : ∀ q, (updatePageFields pn mt st q).uuid = q.uuid := fun q => rfl
  by_cases hany : (ps.any fun p => p.uuid == page_uuid) = true
  · have hfirst : upsertPagesList page_uuid pn mt st ps =
        replaceFirstPage page_uuid (updatePageFields pn mt st) ps := by
      rw [upsertPagesList, if_pos hany]
    rw [hfirst, upsertPagesList,
      if_pos (by rw [replaceFirstPage_any page_uuid _ hkeep]; exact hany)]
    exact replaceFirstPage_idem page_uuid _ hkeep (updatePageFields_idem pn mt st) ps
  · have hfirst : upsertPagesList page_uuid pn mt st ps =
        updatePageFields pn mt st (newPage page_uuid) :: ps := by
      rw [upsertPagesList, if_neg hany]
    have hhead : ((updatePageFields pn mt st (newPage page_uuid)).uuid == page_uuid) = true := by
      simp [updatePageFields, newPage, h36]
    rw [hfirst, upsertPagesList, if_pos (by simp [List.any_cons, hhead])]
    rw [replaceFirstPage, if_pos hhead, updatePageFields_idem]

theorem replaceFirstDoc_any (doc_id : Bytes) (f : DocumentEntry → DocumentEntry)
    (hkeep : ∀ q, (f q).doc_id = q.doc_id) (ds : List DocumentEntry) :
    ((replaceFirstDoc doc_id f ds).any fun d => d.doc_id == doc_id) =
      (ds.any fun d => d.doc_id == doc_id) := by
  induction ds with
  | nil => rfl
  | cons d ds ih =>
    by_cases hd : (d.doc_id == doc_id) = true
    · simp [replaceFirstDoc, hd, hkeep]
    · simp [replaceFirstDoc, hd, ih]

theorem replaceFirstDoc_idem (doc_id : Bytes) (f : DocumentEntry → DocumentEntry)
    (hkeep : ∀ q, (f q).doc_id = q.doc_id) (hff : ∀ q, f (f q) = f q)
    (ds : List DocumentEntry) :
    replaceFirstDoc doc_id f (replaceFirstDoc doc_id f ds) =
      replaceFirstDoc doc_id f ds := by
  induction ds with
  | nil => rfl
  | cons d ds ih =>
    by_cases hd : (d.doc_id == doc_id) = true
    · simp [replaceFirstDoc, hd, hkeep, hff]
    · simp [replaceFirstDoc, hd, ih]

theorem upsertBucket_idem (doc_id page_uuid : Bytes) (pn : Option Bytes)
    (mt st : Nat) (hdid : doc_id.take UUID_LEN = doc_id)
    (huuid : page_uuid.take UUID_LEN = page_uuid) (ds : List DocumentEntry) :
    upsertBucket doc_id page_uuid pn mt st (upsertBucket doc_id page_uuid pn mt st ds) =
      upsertBucket doc_id page_uuid pn mt st ds := by
  have hkeep : ∀ q : DocumentEntry,
      ((fun d : DocumentEntry =>
        { d with pages := upsertPagesList page_uuid pn mt st d.pages }) q).doc_id =
        q.doc_id := fun _ => rfl
  have hff : ∀ q : DocumentEntry,
      (fun d : DocumentEntry => { d with pages := upsertPagesList page_uuid pn mt st d.pages })
        ((fun d : DocumentEntry =>
          { d with pages := upsertPagesList page_uuid pn mt st d.pages }) q) =
      (fun d : DocumentEntry =>
        { d with pages := upsertPagesList page_uuid pn mt st d.pages }) q := by
    intro q
    simp only
    rw [upsertPagesList_idem page_uuid pn mt st huuid]
  by_cases hany : (ds.any fun d => d.doc_id == doc_id) = true
  · have hfirst : upsertBucket doc_id page_uuid pn mt st ds =
        replaceFirstDoc doc_id
          (fun d => { d with pages := upsertPagesList page_uuid pn mt st d.pages }) ds := by
      rw [upsertBucket, if_pos hany]
    rw [hfirst, upsertBucket,
      if_pos (by rw [replaceFirstDoc_any doc_id _ hkeep]; exact hany)]
    exact replaceFirstDoc_idem doc_id _ hkeep hff ds
  · have hfirst : upsertBucket doc_id page_uuid pn mt st ds =
        { doc_id := doc_id.take UUID_LEN,
          pages := upsertPagesList page_uuid pn mt st [] } :: ds := by
      rw [upsertBucket, if_neg hany]
    have hhead : (((⟨doc_id.take UUID_LEN,
        upsertPagesList page_uuid pn mt st []⟩ : DocumentEntry)).doc_id == doc_id) = true := by
      simp [hdid]
    rw [hfirst, upsertBucket, if_pos (by simp [List.any_cons, hhead])]
    rw [replaceFirstDoc, if_pos hhead]
    simp only
    rw [upsertPagesList_idem page_uuid pn mt st huuid]

/-- C8 amended: upsert is idempotent for every store with the program's
256-bucket table and every argument tuple whose `doc_id` and `page_uuid`
are at most UUID_LEN bytes (in particular all genuine 36-character
UUIDs): a second identical call leaves the store — documents, pages,
all fields and the dirty flag — exactly as after the first. -/
theorem c8_upsert_idempotent (c : CacheHandle) (did uuid : Bytes)
    (pn : Option Bytes) (mt st : Nat)
    (hlen : c.table.length = HASH_TABLE_SIZE)
    (hdid : did.length ≤ UUID_LEN) (huuid : uuid.length ≤ UUID_LEN) :
    cache_add_or_update_page (cache_add_or_update_page c did uuid pn mt st)
        did uuid pn mt st =
      cache_add_or_update_page c did uuid pn mt st := by
  have hdid' : did.take UUID_LEN = did := List.take_of_length_le hdid
  have huuid' : uuid.take UUID_LEN = uuid := List.take_of_length_le huuid
  have hlt : hash_string did < c.table.length := by
    rw [hlen]
    exact hash_string_lt did
  show ({ c with
    table := (c.table.set (hash_string did)
        (upsertBucket did uuid pn mt st (c.table.getD (hash_string did) []))).set
      (hash_string did)
      (upsertBucket did uuid pn mt st
        ((c.table.set (hash_string did)
          (upsertBucket did uuid pn mt st (c.table.getD (hash_string did) []))).getD
            (hash_string did) []))
    dirty := true } : CacheHandle) = _
  rw [getD_set_self _ _ _ _ hlt, upsertBucket_idem did uuid pn mt st hdid' huuid',
    List.set_set]
  rfl

/-- C8 counterexample: with a 37-byte document id the stored id is
truncated to 36 bytes, the second identical upsert no longer finds the
document by strcmp and prepends a duplicate — the store differs after
the second call. -/
theorem c8_counterexample :
    cache_add_or_update_page
        (cache_add_or_update_page (emptyCache "cache") (List.replicate 37 97) uuidB
          (some [49]) 100 SYNC_PENDING)
        (List.replicate 37 97) uuidB (some [49]) 100 SYNC_PENDING ≠
      cache_add_or_update_page (emptyCache "cache") (List.replicate 37 97) uuidB
        (some [49]) 100 SYNC_PENDING := by
  decide

/-- C8 witness: idempotence on the one-page store `c0` with genuine
36-byte ids. -/
theorem c8_witness :
    cache_add_or_update_page (cache_add_or_update_page c0 didA uuidB (some [50]) 300 SYNC_UPLOADED)
        didA uuidB (some [50]) 300 SYNC_UPLOADED =
      cache_add_or_update_page c0 didA uuidB (some [50]) 300 SYNC_UPLOADED :=
  c8_upsert_idempotent c0 didA uuidB (some [50]) 300 SYNC_UPLOADED
    (by decide) (by decide) (by decide)

/-! ## Codec groundwork for C4, C2 and C5 -/

theorem leBytes_length (k v : Nat) : (leBytes k v).length = k := by
  induction k generalizing v with
  | zero => rfl
  | succ k ih => simp [leBytes, ih]

theorem leVal_leBytes (k v : Nat) (h : v < 256 ^ k) : leVal (leBytes k v) = v := by
  induction k generalizing v with
  | zero => simp at h; simp [h, leBytes, leVal]
  | succ k ih =>
    have hdiv : v / 256 < 256 ^ k := by
      rw [Nat.div_lt_iff_lt_mul (by norm_num)]
      calc v < 256 ^ (k + 1) := h
        _ = 256 ^ k * 256 := by ring
    simp only [leBytes, leVal, List.foldr_cons]
    have : leVal (leBytes k (v / 256)) = v / 256 := ih _ hdiv
    rw [leVal] at this
    rw [this]
    omega

theorem padTo_length (n : Nat) (s : Bytes) (h : s.length ≤ n) :
    (padTo n s).length = n := by
  simp [padTo, List.length_append, List.length_take, List.length_replicate]
  omega

theorem cStr_all (s : Bytes) (h : ∀ b ∈ s, b ≠ 0) : cStr s = s := by
  induction s with
  | nil => rfl
  | cons b s ih =>
    have hb : b ≠ 0 := h b (by simp)
    simp [cStr, List.takeWhile_cons, hb]
    exact fun x hx => h x (by simp [hx])

theorem cStr_append_zeros (s : Bytes) (k : Nat) (h : ∀ b ∈ s, b ≠ 0) :
    cStr (s ++ List.replicate k 0) = s := by
  induction s with
  | nil =>
    cases k with
    | zero => rfl
    | succ k => simp [cStr, List.replicate_succ, List.takeWhile_cons]
  | cons b s ih =>
    have hb : b ≠ 0 := h b (by simp)
    have ih' := ih (fun x hx => h x (by simp [hx]))
    simp only [cStr, ne_eq, decide_not] at ih'
    simp [cStr, List.takeWhile_cons, hb]
    exact ih'

theorem cStr_padTo (n : Nat) (s : Bytes) (hlen : s.length ≤ n)
    (h : ∀ b ∈ s, b ≠ 0) : cStr (padTo n s) = s := by
  rw [padTo, List.take_of_length_le hlen]
  exact cStr_append_zeros s _ h


theorem decodePagesLoop_cons (j : Nat) (p : PageEntry) (R : Bytes) (hw : WFpage p) :
    decodePagesLoop CACHE_VERSION (j + 1) (encodePage p ++ R) =
      ((p :: (decodePagesLoop CACHE_VERSION j R).1),
       (decodePagesLoop CACHE_VERSION j R).2) := by
  obtain ⟨u, pn, mt, st, rc⟩ := p
  obtain ⟨hu_len, hu_b, hpn_len, hpn_b, hmt, hst, hrc⟩ := hw
  simp only at hu_len hu_b hpn_len hpn_b hmt hst hrc
  have hu : (padTo UUID_LEN u).length = UUID_LEN := padTo_length _ _ hu_len
  have hstream : encodePage ⟨u, pn, mt, st, rc⟩ ++ R =
      padTo UUID_LEN u ++ (pn.length ::
        (pn ++ (leBytes 8 mt ++ st :: rc :: R))) := by
    simp [encodePage, List.append_assoc]
  rw [hstream]
  have hc1 : ¬ ((padTo UUID_LEN u ++ (pn.length ::
      (pn ++ (leBytes 8 mt ++ st :: rc :: R)))).length < UUID_LEN) := by
    simp [List.length_append, hu]
  have hc2 : ¬ (MAX_PAGE_NUM_LEN ≤ pn.length) := by omega
  have hc3 : ¬ ((pn ++ (leBytes 8 mt ++ st :: rc :: R)).length < pn.length) := by
    simp [List.length_append]
  have hc4 : ¬ ((leBytes 8 mt ++ st :: rc :: R).length < 8) := by
    simp [List.length_append, leBytes_length]
  have ht1 : (padTo UUID_LEN u ++ (pn.length ::
      (pn ++ (leBytes 8 mt ++ st :: rc :: R)))).take UUID_LEN = padTo UUID_LEN u :=
    List.take_left' hu
  have hd1 : (padTo UUID_LEN u ++ (pn.length ::
      (pn ++ (leBytes 8 mt ++ st :: rc :: R)))).drop UUID_LEN =
      pn.length :: (pn ++ (leBytes 8 mt ++ st :: rc :: R)) :=
    List.drop_left' hu
  have ht2 : (pn ++ (leBytes 8 mt ++ st :: rc :: R)).take pn.length = pn :=
    List.take_left' rfl
  have hd2 : (pn ++ (leBytes 8 mt ++ st :: rc :: R)).drop pn.length =
      leBytes 8 mt ++ st :: rc :: R :=
    List.drop_left' rfl
  have ht3 : (leBytes 8 mt ++ st :: rc :: R).take 8 = leBytes 8 mt :=
    List.take_left' (leBytes_length 8 mt)
  have hd3 : (leBytes 8 mt ++ st :: rc :: R).drop 8 = st :: rc :: R :=
    List.drop_left' (leBytes_length 8 mt)
  have hval : leVal (leBytes 8 mt) = mt := leVal_leBytes 8 mt hmt
  have hcu : cStr (padTo UUID_LEN u) = u :=
    cStr_padTo _ _ hu_len (fun b hb => (hu_b b hb).1)
  have hcp : cStr pn = pn := cStr_all _ (fun b hb => (hpn_b b hb).1)
  simp only [decodePagesLoop, hc1, hc2, hc3, hc4, ht1, hd1, ht2, hd2, ht3, hd3,
    hval, hcu, hcp, if_false, ite_false, ite_true, if_neg, not_false_eq_true]

theorem decodePagesLoop_encode (ps : List PageEntry) (rest : Bytes)
    (h : ∀ p ∈ ps, WFpage p) :
    decodePagesLoop CACHE_VERSION ps.length ((ps.map encodePage).flatten ++ rest) =
      (ps, rest) := by
  induction ps generalizing rest with
  | nil => simp [decodePagesLoop]
  | cons p ps ih =>
    have hw := h p (by simp)
    have hrest := ih rest (fun q hq => h q (by simp [hq]))
    simp only [List.map_cons, List.flatten_cons, List.length_cons, List.append_assoc]
    rw [decodePagesLoop_cons ps.length p _ hw, hrest]

theorem decodeDocsLoop_nil (ver k : Nat) : decodeDocsLoop ver k [] = [] := by
  cases k with
  | zero => rfl
  | succ k => rfl

theorem decodeDocsLoop_cons (n : Nat) (d : DocumentEntry) (R : Bytes) (hw : WFdoc d) :
    decodeDocsLoop CACHE_VERSION (n + 1) (encodeDoc d ++ R) =
      d :: decodeDocsLoop CACHE_VERSION n R := by
  obtain ⟨did, pages⟩ := d
  obtain ⟨hd_len, hd_b, hp_count, hp_all⟩ := hw
  simp only at hd_len hd_b hp_count hp_all
  have hu : (padTo UUID_LEN did).length = UUID_LEN := padTo_length _ _ hd_len
  have hstream : encodeDoc ⟨did, pages⟩ ++ R =
      UUID_LEN :: (padTo UUID_LEN did ++
        (leBytes 2 pages.length ++ ((pages.map encodePage).flatten ++ R))) := by
    simp [encodeDoc, List.append_assoc]
  rw [hstream]
  have hne : ¬ (UUID_LEN ≠ UUID_LEN) := not_not_intro rfl
  have hc2 : ¬ ((padTo UUID_LEN did ++
      (leBytes 2 pages.length ++ ((pages.map encodePage).flatten ++ R))).length <
        UUID_LEN) := by
    simp [List.length_append, hu]
  have ht1 : (padTo UUID_LEN did ++
      (leBytes 2 pages.length ++ ((pages.map encodePage).flatten ++ R))).take UUID_LEN =
      padTo UUID_LEN did :=
    List.take_left' hu
  have hd1 : (padTo UUID_LEN did ++
      (leBytes 2 pages.length ++ ((pages.map encodePage).flatten ++ R))).drop UUID_LEN =
      leBytes 2 pages.length ++ ((pages.map encodePage).flatten ++ R) :=
    List.drop_left' hu
  have hc3 : ¬ ((leBytes 2 pages.length ++
      ((pages.map encodePage).flatten ++ R)).length < 2) := by
    simp [List.length_append, leBytes_length]
  have ht2 : (leBytes 2 pages.length ++
      ((pages.map encodePage).flatten ++ R)).take 2 = leBytes 2 pages.length :=
    List.take_left' (leBytes_length 2 _)
  have hd2 : (leBytes 2 pages.length ++
      ((pages.map encodePage).flatten ++ R)).drop 2 =
      (pages.map encodePage).flatten ++ R :=
    List.drop_left' (leBytes_length 2 _)
  have hval : leVal (leBytes 2 pages.length) = pages.length :=
    leVal_leBytes 2 _ (by norm_num; omega)
  have hcu : cStr (padTo UUID_LEN did) = did :=
    cStr_padTo _ _ hd_len (fun b hb => (hd_b b hb).1)
  have hpr : decodePagesLoop CACHE_VERSION pages.length
      ((pages.map encodePage).flatten ++ R) = (pages, R) :=
    decodePagesLoop_encode pages R hp_all
  simp only [decodeDocsLoop, hne, hc2, ht1, hd1, hc3, ht2, hd2, hval, hcu, hpr,
    if_false, ite_false, ite_true, not_false_eq_true]

theorem decodeDocsLoop_encode (ds : List DocumentEntry) (k : Nat)
    (h : ∀ d ∈ ds, WFdoc d) :
    decodeDocsLoop CACHE_VERSION (ds.length + k) (encodeDocs ds) = ds := by
  induction ds generalizing k with
  | nil => simpa [encodeDocs] using decodeDocsLoop_nil CACHE_VERSION k
  | cons d ds ih =>
    have hlen : (d :: ds).length + k = (ds.length + k) + 1 := by
      simp [List.length_cons]
      omega
    rw [hlen]
    have henc : encodeDocs (d :: ds) = encodeDoc d ++ encodeDocs ds := by
      simp [encodeDocs]
    rw [henc, decodeDocsLoop_cons (ds.length + k) d _ (h d (by simp)),
      ih k (fun x hx => h x (by simp [hx]))]

theorem flatten_replicate_nil {α : Type} (n : Nat) :
    (List.replicate n ([] : List α)).flatten = [] := by
  induction n with
  | zero => rfl
  | succ n ih => simp [List.replicate_succ, ih]

theorem emptyTable_flatten : emptyTable.flatten = [] :=
  flatten_replicate_nil HASH_TABLE_SIZE

theorem set_cons_flatten_perm {α : Type} (t : List (List α)) (i : Nat) (x : α)
    (h : i < t.length) :
    (t.set i (x :: t.getD i [])).flatten.Perm (x :: t.flatten) := by
  induction t generalizing i with
  | nil => simp at h
  | cons b bs ih =>
    cases i with
    | zero =>
      simp only [List.set_cons_zero, List.getD_cons_zero, List.flatten_cons,
        List.cons_append]
      exact List.Perm.refl _
    | succ i =>
      have hi : i < bs.length := by simpa using h
      have step := ih i hi
      simp only [List.set_cons_succ, List.getD_cons_succ, List.flatten_cons]
      exact ((step.append_left b).trans List.perm_middle)

theorem buildTable_aux_perm (ds : List DocumentEntry)
    (t : List (List DocumentEntry)) (hlen : t.length = HASH_TABLE_SIZE) :
    (ds.foldl insertDoc t).flatten.Perm (ds ++ t.flatten) := by
  induction ds generalizing t with
  | nil => simp
  | cons d ds ih =>
    have h1 := ih (insertDoc t d) (by simp [insertDoc, List.length_set, hlen])
    have h2 : (insertDoc t d).flatten.Perm (d :: t.flatten) :=
      set_cons_flatten_perm t (hash_string d.doc_id) d
        (by rw [hlen]; exact hash_string_lt _)
    simp only [List.foldl_cons, List.cons_append]
    exact h1.trans ((h2.append_left ds).trans List.perm_middle)

theorem buildTable_flatten_perm (ds : List DocumentEntry) :
    (buildTable ds).flatten.Perm ds := by
  have := buildTable_aux_perm ds emptyTable (by simp [emptyTable])
  simpa [emptyTable_flatten] using this

theorem open_load_header (n : Nat) (body : Bytes) (hn : n < 4294967296) :
    cache_open_load (leBytes 4 CACHE_MAGIC ++ CACHE_VERSION :: (leBytes 4 n ++ body)) =
      buildTable (decodeDocsLoop CACHE_VERSION n body) := by
  have hm4 : (leBytes 4 CACHE_MAGIC).length = 4 := leBytes_length 4 _
  have hc1 : ¬ ((leBytes 4 CACHE_MAGIC ++ CACHE_VERSION ::
      (leBytes 4 n ++ body)).length < 4) := by
    simp [List.length_append, hm4]
  have ht1 : (leBytes 4 CACHE_MAGIC ++ CACHE_VERSION ::
      (leBytes 4 n ++ body)).take 4 = leBytes 4 CACHE_MAGIC :=
    List.take_left' hm4
  have hd1 : (leBytes 4 CACHE_MAGIC ++ CACHE_VERSION ::
      (leBytes 4 n ++ body)).drop 4 = CACHE_VERSION :: (leBytes 4 n ++ body) :=
    List.drop_left' hm4
  have hmval : leVal (leBytes 4 CACHE_MAGIC) = CACHE_MAGIC :=
    leVal_leBytes 4 _ (by norm_num [CACHE_MAGIC])
  have hmagic : ¬ (leVal (leBytes 4 CACHE_MAGIC) ≠ CACHE_MAGIC) :=
    not_not_intro hmval
  have hver : ¬ (CACHE_VERSION ≠ CACHE_VERSION ∧ CACHE_VERSION ≠ 1) := by
    intro hcon
    exact hcon.1 rfl
  have hc2 : ¬ ((leBytes 4 n ++ body).length < 4) := by
    simp [List.length_append, leBytes_length]
  have ht2 : (leBytes 4 n ++ body).take 4 = leBytes 4 n :=
    List.take_left' (leBytes_length 4 n)
  have hd2 : (leBytes 4 n ++ body).drop 4 = body :=
    List.drop_left' (leBytes_length 4 n)
  have hnval : leVal (leBytes 4 n) = n := leVal_leBytes 4 n (by norm_num; omega)
  have hmagic' : ¬ (CACHE_MAGIC ≠ CACHE_MAGIC) := not_not_intro rfl
  simp only [cache_open_load, hc1, hmagic, hmagic', ht1, hd1, hver, hc2, ht2, hd2,
    hmval, hnval, if_false, ite_false, ite_true, not_false_eq_true]

/-- C4: saving any well-formed store and decoding the produced bytes
with the load procedure restores the same multiset of documents — each
document with its exact page list (page ids, numbers, mtimes, statuses
and retry counts equal); bucket lists are rebuilt by hashing, so the
store contents agree as sets, which is what reload() after save() of
the same process observes. -/
theorem c4_roundtrip (c : CacheHandle) (hw : WFstore c) :
    (cache_open_load (encodeStore c)).flatten.Perm c.table.flatten := by
  have hbody : decodeDocsLoop CACHE_VERSION c.table.flatten.length
      (encodeDocs c.table.flatten) = c.table.flatten := by
    have := decodeDocsLoop_encode c.table.flatten 0 hw.2
    simpa using this
  rw [encodeStore, open_load_header _ _ hw.1, hbody]
  exact buildTable_flatten_perm _

/-- C4 witness: the roundtrip on the concrete one-page store `c0`. -/
theorem c4_witness :
    (cache_open_load (encodeStore c0)).flatten.Perm c0.table.flatten :=
  c4_roundtrip c0 (by decide)

/-! ## C2: decode errors and the empty store -/


theorem open_load_of_bad_header (bs : Bytes) (h : headerOk bs = false) :
    cache_open_load bs = emptyTable := by
  rw [headerOk] at h
  rw [cache_open_load]
  by_cases h1 : bs.length < 4
  · rw [if_pos h1]
  · rw [if_neg h1]
    have h1' : decide (4 ≤ bs.length) = true := by
      simp
      omega
    by_cases h2 : leVal (bs.take 4) ≠ CACHE_MAGIC
    · rw [if_pos h2]
    · rw [if_neg h2]
      have h2' : (leVal (bs.take 4) == CACHE_MAGIC) = true := by
        simpa using not_not.mp h2
      cases hdrop : bs.drop 4 with
      | nil => rfl
      | cons ver bs1 =>
        rw [hdrop] at h
        simp only [h1', h2', Bool.true_and] at h
        show (if ver ≠ CACHE_VERSION ∧ ver ≠ 1 then emptyTable
          else if bs1.length < 4 then emptyTable
          else buildTable (decodeDocsLoop ver (leVal (bs1.take 4)) (bs1.drop 4))) =
            emptyTable
        by_cases h3 : ver ≠ CACHE_VERSION ∧ ver ≠ 1
        · rw [if_pos h3]
        · rw [if_neg h3]
          have hA : ((ver == CACHE_VERSION) || (ver == 1)) = true := by
            rcases not_and_or.mp h3 with hv | hv
            · simp [not_not.mp hv]
            · simp [not_not.mp hv]
          rw [hA, Bool.true_and] at h
          have hB : bs1.length < 4 := by simpa using h
          rw [if_pos hB]

/-- C2 amended: only header-level decode problems (fewer than 4 magic
bytes, wrong magic, missing or unsupported version byte, short document
count — in particular a file truncated immediately after the magic)
leave the caller with an empty store; an error later in the scan (here:
a document count promising more records than the stream holds) merely
stops decoding and retains every fully decoded prior document, so the
loaded store is not necessarily empty. -/
theorem c2_load_failure (bs : Bytes) :
    (headerOk bs = false → cache_open_load bs = emptyTable) ∧
    cache_open_load (leBytes 4 CACHE_MAGIC) = emptyTable ∧
    (∀ (ds : List DocumentEntry) (k : Nat), (∀ d ∈ ds, WFdoc d) →
      ds.length + (k + 1) < 4294967296 →
      cache_open_load (leBytes 4 CACHE_MAGIC ++ CACHE_VERSION ::
          (leBytes 4 (ds.length + (k + 1)) ++ encodeDocs ds)) = buildTable ds ∧
        (buildTable ds).flatten.Perm ds) := by
  refine ⟨open_load_of_bad_header bs, by decide, fun ds k hwf hcount => ⟨?_, ?_⟩⟩
  · rw [open_load_header _ _ hcount]
    have henc : decodeDocsLoop CACHE_VERSION (ds.length + (k + 1)) (encodeDocs ds) = ds :=
      decodeDocsLoop_encode ds (k + 1) hwf
    rw [henc]
  · exact buildTable_flatten_perm ds

/-- C2 counterexample: a file whose header promises two documents but
whose bytes carry one valid empty document followed by an invalid id
length byte 35 — a decoding error by the claim's own list — loads to a
store still containing the first document, not to an empty store. -/
theorem c2_counterexample :
    (cache_open_load (leBytes 4 CACHE_MAGIC ++ CACHE_VERSION ::
        (leBytes 4 2 ++ ((UUID_LEN :: (padTo UUID_LEN didA ++ leBytes 2 0)) ++ [35])))).flatten =
      [⟨didA, []⟩] ∧
    ([⟨didA, []⟩] : List DocumentEntry) ≠ [] := by
  constructor
  · decide
  · decide

/-- C2 witness: the amended statement applied to a concrete short file
(bad header), to the truncated-after-magic file, and to a concrete
one-document retention stream. -/
theorem c2_witness :
    cache_open_load [82] = emptyTable ∧
    cache_open_load (leBytes 4 CACHE_MAGIC) = emptyTable ∧
    (cache_open_load (leBytes 4 CACHE_MAGIC ++ CACHE_VERSION ::
        (leBytes 4 (([(⟨didA, []⟩ : DocumentEntry)] : List DocumentEntry).length + (0 + 1)) ++
          encodeDocs [⟨didA, []⟩])) = buildTable [⟨didA, []⟩] ∧
      (buildTable [(⟨didA, []⟩ : DocumentEntry)]).flatten.Perm [⟨didA, []⟩]) :=
  ⟨(c2_load_failure [82]).1 (by decide),
   (c2_load_failure [82]).2.1,
   (c2_load_failure [82]).2.2 [⟨didA, []⟩] 0 (by decide) (by decide)⟩

/-! ## C5: the two decode paths agree, v1 semantics -/

theorem decodePagesLoopR_eq (ver n : Nat) (bs : Bytes) :
    decodePagesLoopR ver n bs = decodePagesLoop ver n bs := by
  induction n generalizing bs with
  | zero => rfl
  | succ n ih => simp only [decodePagesLoopR, decodePagesLoop, ih]

theorem decodeDocsLoopR_eq (ver n : Nat) (bs : Bytes) :
    decodeDocsLoopR ver n bs = decodeDocsLoop ver n bs := by
  induction n generalizing bs with
  | zero => rfl
  | succ n ih => simp only [decodeDocsLoopR, decodeDocsLoop, decodePagesLoopR_eq, ih]

theorem decodePagesLoop_v1_pending (n : Nat) (bs : Bytes) :
    ∀ p ∈ (decodePagesLoop 1 n bs).1,
      p.sync_status = SYNC_PENDING ∧ p.retry_count = 0 := by
  induction n generalizing bs with
  | zero => intro p hp; simp [decodePagesLoop] at hp
  | succ n ih =>
    intro p hp
    rw [decodePagesLoop] at hp
    split at hp
    · simp at hp
    · cases hB : bs.drop UUID_LEN with
      | nil => rw [hB] at hp; simp at hp
      | cons len bs1 =>
        rw [hB] at hp
        simp only [] at hp
        split at hp
        · simp at hp
        · split at hp
          · simp at hp
          · split at hp
            · simp at hp
            · split at hp
              · exact absurd (by assumption : (1 : Nat) = CACHE_VERSION) (by decide)
              · rcases List.mem_cons.mp hp with rfl | hp
                · exact ⟨rfl, rfl⟩
                · exact ih _ p hp

theorem decodeDocsLoop_v1_pending (n : Nat) (bs : Bytes) :
    ∀ d ∈ decodeDocsLoop 1 n bs, ∀ p ∈ d.pages,
      p.sync_status = SYNC_PENDING ∧ p.retry_count = 0 := by
  induction n generalizing bs with
  | zero => intro d hd; simp [decodeDocsLoop] at hd
  | succ n ih =>
    intro d hd
    cases bs with
    | nil => simp [decodeDocsLoop] at hd
    | cons dl bs1 =>
      rw [decodeDocsLoop] at hd
      split at hd
      · simp at hd
      · split at hd
        · simp at hd
        · simp only [] at hd
          split at hd
          · simp at hd
          · rcases List.mem_cons.mp hd with rfl | hd
            · exact fun p hp => decodePagesLoop_v1_pending _ _ p hp
            · exact ih _ d hd

/-- C5: the reload decode path computes exactly the same table as the
open decode path on every byte stream, and on every version-1 stream
each decoded page is imported as PENDING with retry count 0, whatever
the other legacy bytes hold. -/
theorem c5_decode_paths_agree (bs : Bytes) :
    (cache_reload_load bs).2 = cache_open_load bs ∧
    ((bs.drop 4).head? = some 1 →
      ∀ d ∈ (cache_open_load bs).flatten, ∀ p ∈ d.pages,
        p.sync_status = SYNC_PENDING ∧ p.retry_count = 0) := by
  constructor
  · rw [cache_reload_load, cache_open_load]
    by_cases h1 : bs.length < 4
    · rw [if_pos h1, if_pos h1]
    · rw [if_neg h1, if_neg h1]
      by_cases h2 : leVal (bs.take 4) ≠ CACHE_MAGIC
      · rw [if_pos h2, if_pos h2]
      · rw [if_neg h2, if_neg h2]
        cases bs.drop 4 with
        | nil => rfl
        | cons ver bs1 =>
          show (if ver ≠ CACHE_VERSION ∧ ver ≠ 1 then ((-1 : Int), emptyTable)
            else if bs1.length < 4 then ((-1 : Int), emptyTable)
            else ((0 : Int), buildTable (decodeDocsLoopR ver (leVal (bs1.take 4))
              (bs1.drop 4)))).2 =
            (if ver ≠ CACHE_VERSION ∧ ver ≠ 1 then emptyTable
            else if bs1.length < 4 then emptyTable
            else buildTable (decodeDocsLoop ver (leVal (bs1.take 4)) (bs1.drop 4)))
          by_cases h3 : ver ≠ CACHE_VERSION ∧ ver ≠ 1
          · rw [if_pos h3, if_pos h3]
          · rw [if_neg h3, if_neg h3]
            by_cases h4 : bs1.length < 4
            · rw [if_pos h4, if_pos h4]
            · rw [if_neg h4, if_neg h4]
              simp [decodeDocsLoopR_eq]
  · intro hver d hd p hp
    rw [cache_open_load] at hd
    by_cases h1 : bs.length < 4
    · rw [if_pos h1, emptyTable_flatten] at hd
      cases hd
    · rw [if_neg h1] at hd
      by_cases h2 : leVal (bs.take 4) ≠ CACHE_MAGIC
      · rw [if_pos h2, emptyTable_flatten] at hd
        cases hd
      · rw [if_neg h2] at hd
        cases hdrop : bs.drop 4 with
        | nil => rw [hdrop] at hver; cases hver
        | cons ver bs1 =>
          rw [hdrop] at hver hd
          rw [List.head?_cons] at hver
          obtain rfl : ver = 1 := Option.some.inj hver
          show p.sync_status = SYNC_PENDING ∧ p.retry_count = 0
          by_cases h3 : (1 : Nat) ≠ CACHE_VERSION ∧ (1 : Nat) ≠ 1
          · exact absurd rfl h3.2
          · rw [show (match (1 :: bs1 : Bytes) with
              | [] => emptyTable
              | ver :: bs2 =>
                if ver ≠ CACHE_VERSION ∧ ver ≠ 1 then emptyTable
                else if bs2.length < 4 then emptyTable
                else buildTable (decodeDocsLoop ver (leVal (bs2.take 4)) (bs2.drop 4))) =
              (if (1 : Nat) ≠ CACHE_VERSION ∧ (1 : Nat) ≠ 1 then emptyTable
                else if bs1.length < 4 then emptyTable
                else buildTable (decodeDocsLoop 1 (leVal (bs1.take 4)) (bs1.drop 4)))
              from rfl, if_neg h3] at hd
            by_cases h4 : bs1.length < 4
            · rw [if_pos h4, emptyTable_flatten] at hd
              cases hd
            · rw [if_neg h4] at hd
              have hmem : d ∈ decodeDocsLoop 1 (leVal (bs1.take 4)) (bs1.drop 4) :=
                (buildTable_flatten_perm _).subset hd
              exact decodeDocsLoop_v1_pending _ _ d hmem p hp


/-- C5 witness: the decode paths agree on the concrete version-1 file
and all its decoded pages import as PENDING with retry 0. -/
theorem c5_witness :
    (cache_reload_load v1Bytes).2 = cache_open_load v1Bytes ∧
    (∀ d ∈ (cache_open_load v1Bytes).flatten, ∀ p ∈ d.pages,
      p.sync_status = SYNC_PENDING ∧ p.retry_count = 0) :=
  ⟨(c5_decode_paths_agree v1Bytes).1,
   (c5_decode_paths_agree v1Bytes).2 (by decide)⟩

end RmSync
